import Mathlib

/-!
Verification of the godelta delta-synchronization tool (src/main.go).

The command-line orchestration (argument checks, command dispatch, file
bookkeeping, the decoder goroutines and the cleanup paths) is embedded
directly from src/main.go.  The four-stage delta core lives in the
external gsync library (gsync.Signatures, gsync.LookUpTable, gsync.Sync,
gsync.Apply), whose implementation is not part of this repository; those
stages are modelled from the specification (sections 4.1 to 4.5) and are
marked as such in their doc comments.

Bytes are modelled as natural numbers; files are lists of bytes.
-/

set_option autoImplicit false

namespace Godelta

/-- Modelled from the spec (4.1, missing gsync rolling-checksum code): the
weak checksum is a cheap rolling sum over the window, a fixed-width
integer.  Collisions across distinct content are expected and are
disambiguated by the strong hash. -/
def weakSum (w : List Nat) : Nat :=
  (w.foldl (· + ·) 0) % 65536

/-- Modelled from the spec (4.1, missing gsync strong-hash code): the
strong hash is a collision-resistant digest and the spec assumes equal
strong hash implies equal content by design.  It is therefore modelled
symbolically as an injective function of the window content: the digest
state is the byte sequence itself. -/
def strongHash (w : List Nat) : List Nat := w

/-- Modelled from the spec (3, data model): one signature per base block,
with the block index, the weak checksum and the strong digest.  The error
marker of the streamed protocol is modelled separately by `ChanRec`. -/
structure BlockSignature where
  index : Nat
  weak : Nat
  strong : List Nat
deriving DecidableEq, Repr

/-- Modelled from the spec (4.2): fuel-indexed fingerprint loop.  Reads
the base sequentially in blocks of `S` bytes (the last block may be
shorter), emitting one signature per block with contiguous indices
starting at `i`.  The fuel bounds the recursion and is harmless whenever
it is at least the number of remaining bytes. -/
def fingerprintF : Nat → Nat → Nat → List Nat → List BlockSignature
  | 0, _, _, _ => []
  | fuel + 1, S, i, B =>
    if B = [] then []
    else
      ⟨i, weakSum (B.take S), strongHash (B.take S)⟩ ::
        fingerprintF fuel S (i + 1) (B.drop S)

/-- Modelled from the spec (4.2, missing gsync.Signatures): the signature
sequence of a base file at block size `S`. -/
def Signatures (S : Nat) (B : List Nat) : List BlockSignature :=
  fingerprintF B.length S 0 B

/-- A lookup table: buckets keyed by weak checksum, each bucket holding
the (index, strong) candidate pairs in insertion order. -/
def LookupTbl : Type := List (Nat × List (Nat × List Nat))

/-- Insert a candidate at the end of the bucket of its weak checksum,
creating the bucket if absent (insertion order preserved). -/
def tableInsert (t : LookupTbl) (w : Nat) (e : Nat × List Nat) : LookupTbl :=
  match t with
  | [] => [(w, [e])]
  | (w₀, es) :: rest =>
    if w₀ = w then (w₀, es ++ [e]) :: rest
    else (w₀, es) :: tableInsert rest w e

/-- Modelled from the spec (4.3, missing gsync.LookUpTable): build the
mapping from weak checksum to the ordered list of (index, strong)
candidates sharing that weak value. -/
def LookUpTable (sigs : List BlockSignature) : LookupTbl :=
  sigs.foldl (fun t sig => tableInsert t sig.weak (sig.index, sig.strong)) []

/-- Return the (possibly empty) ordered candidate bucket of a weak
checksum. -/
def tableLookup (t : LookupTbl) (w : Nat) : List (Nat × List Nat) :=
  match t with
  | [] => []
  | (w₀, es) :: rest => if w₀ = w then es else tableLookup rest w

/-- Confirm a candidate list against a freshly computed strong hash:
first candidate (in bucket order) whose digest is byte-equal wins. -/
def confirmStrong (cands : List (Nat × List Nat)) (s : List Nat) : Option Nat :=
  match cands with
  | [] => none
  | (i, str) :: rest => if str = s then some i else confirmStrong rest s

/-- Modelled from the spec (4.3): probe the table with the weak checksum,
then confirm by exact strong-digest equality. -/
def tableFind (t : LookupTbl) (w : Nat) (s : List Nat) : Option Nat :=
  confirmStrong (tableLookup t w) s

/-- Reference lookup: first signature, in original insertion order, whose
weak and strong values both match.  Extensionally equal to `tableFind`
over the built table (proved below). -/
def lutFind (sigs : List BlockSignature) (w : Nat) (s : List Nat) : Option Nat :=
  match sigs with
  | [] => none
  | sig :: rest =>
    if sig.weak = w ∧ sig.strong = s then some sig.index else lutFind rest w s

/-- Modelled from the spec (3, design note 9): the explicit tagged
operation variant Copy / Literal / Error. -/
inductive BlockOperation where
  | copy (index : Nat)
  | literal (data : List Nat)
  | error
deriving DecidableEq, Repr

/-- End-of-stream flush of the delta encoder (4.4): the pending literal
buffer first, then the trailing window content, each as one Literal. -/
def flushTail (lit rest : List Nat) : List BlockOperation :=
  (if lit = [] then [] else [BlockOperation.literal lit]) ++
    (if rest = [] then [] else [BlockOperation.literal rest])

/-- Modelled from the spec (4.4, missing gsync.Sync): fuel-indexed rolling
scan.  While at least `S` bytes remain, probe the table with the weak
checksum of the `S`-byte window; on a confirmed match flush the pending
literal buffer, emit Copy and advance by the whole window; otherwise move
the oldest window byte into the literal buffer and slide by one byte.
With fewer than `S` bytes left, flush everything as literals.  The fuel
bounds the recursion and is harmless whenever it is at least the number
of remaining bytes. -/
def syncF (t : LookupTbl) (S : Nat) : Nat → List Nat → List Nat → List BlockOperation
  | 0, lit, rest => flushTail lit rest
  | fuel + 1, lit, rest =>
    if rest.length < S then flushTail lit rest
    else
      match tableFind t (weakSum (rest.take S)) (strongHash (rest.take S)) with
      | some i =>
        (if lit = [] then [] else [BlockOperation.literal lit]) ++
          BlockOperation.copy i :: syncF t S fuel [] (rest.drop S)
      | none => syncF t S fuel (lit ++ rest.take 1) (rest.drop 1)

/-- Modelled from the spec (4.4, missing gsync.Sync): the operation
sequence encoding target `T` against lookup table `t` at block size `S`. -/
def Sync (S : Nat) (t : LookupTbl) (T : List Nat) : List BlockOperation :=
  syncF t S T.length [] T

/-- Modelled from the spec (4.5): the bytes one operation writes.  Copy
seeks to index times `S` and reads exactly `S` bytes, or the remainder of
the base when the final block is shorter; Literal writes its data
verbatim; Error aborts. -/
def applyBlock (S : Nat) (B : List Nat) : BlockOperation → Except String (List Nat)
  | BlockOperation.copy i => Except.ok ((B.drop (i * S)).take S)
  | BlockOperation.literal d => Except.ok d
  | BlockOperation.error => Except.error "patch operation error"

/-- Modelled from the spec (4.5): reconstructed output of an operation
sequence against base `B`, operations consumed strictly in order. -/
def applyOut (S : Nat) (B : List Nat) : List BlockOperation → Except String (List Nat)
  | [] => Except.ok []
  | op :: rest =>
    match applyBlock S B op with
    | Except.error e => Except.error e
    | Except.ok bytes =>
      match applyOut S B rest with
      | Except.error e => Except.error e
      | Except.ok out => Except.ok (bytes ++ out)

/-- Modelled from the spec (4.5, missing gsync.Apply): reconstruction
loop threading the output and the output-content digest accumulator,
which absorbs every byte written to the output, in order. -/
def applyLoop (S : Nat) (B : List Nat) (out digest : List Nat) :
    List BlockOperation → Except String (List Nat × List Nat)
  | [] => Except.ok (out, digest)
  | op :: rest =>
    match applyBlock S B op with
    | Except.error e => Except.error e
    | Except.ok bytes => applyLoop S B (out ++ bytes) (digest ++ bytes) rest

/-- Modelled from the spec (4.5, missing gsync.Apply): apply an operation
sequence to base `B`, returning the reconstructed output together with
the absorbed output-digest byte sequence. -/
def Apply (S : Nat) (B : List Nat) (ops : List BlockOperation) :
    Except String (List Nat × List Nat) :=
  applyLoop S B [] [] ops

/-- Modelled from the spec (4.4): the whole-target digest accumulator of
the encoder must receive every byte read from the target stream, in
order; over a complete encode the absorbed sequence is the whole target. -/
def encodeDigestInput (T : List Nat) : List Nat := T

/-- The candidate pairs a signature list contributes to the bucket of one
weak checksum, in insertion order. -/
def candidatesOf (sigs : List BlockSignature) (w : Nat) : List (Nat × List Nat) :=
  (sigs.filter (fun sig => sig.weak = w)).map (fun sig => (sig.index, sig.strong))

/-! ## Command-line orchestration, embedded from src/main.go -/

/-- What a session did before it ended: which artifacts it removed and
whether it exited fatally (log.Fatal). -/
structure SessionOutcome where
  removedFingerprint : Bool
  removedOutput : Bool
  fatal : Bool
deriving DecidableEq, Repr

/-- One iteration of the generateFingerprint receive loop (src/main.go
330 to 353): whether ctx.Done was observed at the top of the iteration,
whether the received signature carries an error, and whether gob encoding
of the signature fails. -/
structure SigStep where
  cancelledBefore : Bool
  hasError : Bool
  encodeFails : Bool
deriving DecidableEq, Repr

/-- Embedded from generateFingerprint (src/main.go 299 to 358): every
failure path removes the fingerprint file (os.Remove fpFile.Name) and
exits fatally; a clean pass over all signatures succeeds. -/
def generateFingerprintLoop : List SigStep → SessionOutcome
  | [] => ⟨false, false, false⟩
  | r :: rest =>
    if r.cancelledBefore then ⟨true, false, true⟩
    else if r.hasError then ⟨true, false, true⟩
    else if r.encodeFails then ⟨true, false, true⟩
    else generateFingerprintLoop rest

/-- One iteration of the makeDiff operation loop (src/main.go 476 to
505). -/
structure OpStep where
  cancelledBefore : Bool
  hasError : Bool
  encodeFails : Bool
deriving DecidableEq, Repr

/-- Embedded from the makeDiff operation loop (src/main.go 476 to 505):
every failure path removes the named output file, when one was given,
and exits fatally. -/
def makeDiffLoop (outGiven : Bool) : List OpStep → SessionOutcome
  | [] => ⟨false, false, false⟩
  | r :: rest =>
    if r.cancelledBefore then ⟨false, outGiven, true⟩
    else if r.hasError then ⟨false, outGiven, true⟩
    else if r.encodeFails then ⟨false, outGiven, true⟩
    else makeDiffLoop outGiven rest

/-- Embedded from makeDiff (src/main.go 451 to 505): a gsync.Sync setup
failure or a failure to encode the leading value removes the named
output and exits fatally; otherwise the operation loop runs. -/
def makeDiffOutcome (outGiven syncFails headerEncodeFails : Bool)
    (ops : List OpStep) : SessionOutcome :=
  if syncFails then ⟨false, outGiven, true⟩
  else if headerEncodeFails then ⟨false, outGiven, true⟩
  else makeDiffLoop outGiven ops

/-- The ways applyPatch (src/main.go 513 to 602) can fail after the
output file was created: decoding the leading value fails, or
gsync.Apply returns an error (covering cancellation and corrupt
operation records fed through the operations channel). -/
inductive ApplyFailure where
  | none
  | headerDecodeFails
  | applyFails
deriving DecidableEq, Repr

/-- Embedded from applyPatch (src/main.go 549 to 601): a failure to
decode the leading value removes the named output (551 to 556); an error
returned by gsync.Apply is passed to log.Fatalln with no removal (593 to
596); success only logs the digest. -/
def applyPatchOutcome (outGiven : Bool) : ApplyFailure → SessionOutcome
  | ApplyFailure.none => ⟨false, false, false⟩
  | ApplyFailure.headerDecodeFails => ⟨false, outGiven, true⟩
  | ApplyFailure.applyFails => ⟨false, false, true⟩

/-- A record sent on a feeder channel: a clean item or the error-marked
record built around the decode or context error. -/
inductive ChanRec (α : Type) where
  | item (a : α)
  | errRec
deriving DecidableEq, Repr

/-- Result of one gob Decode call inside a feeder goroutine. -/
inductive DecodeStep (α : Type) where
  | ok (a : α)
  | eof
  | fail
deriving DecidableEq, Repr

/-- Whether the cancellation signal, first visible at iteration
`cancelAt`, is observed at iteration `i` (context cancellation is
monotone: once done, always done). -/
def cancelObserved (cancelAt : Option Nat) (i : Nat) : Bool :=
  match cancelAt with
  | some n => decide (n ≤ i)
  | none => false

/-- Embedded from the decoder goroutines of makeDiff (src/main.go 382 to
413) and applyPatch (561 to 591): each iteration first checks ctx.Done
and, once observed, sends a single error-marked record and returns; a
decode failure likewise sends a single error-marked record and returns;
EOF closes the channel with no further record; otherwise the decoded
record is sent and the loop continues. -/
def feeder {α : Type} (cancelAt : Option Nat) : Nat → List (DecodeStep α) → List (ChanRec α)
  | i, ds =>
    if cancelObserved cancelAt i then [ChanRec.errRec]
    else
      match ds with
      | [] => []
      | DecodeStep.eof :: _ => []
      | DecodeStep.fail :: _ => [ChanRec.errRec]
      | DecodeStep.ok a :: rest => ChanRec.item a :: feeder cancelAt (i + 1) rest

/-- Role a file plays in a session. -/
inductive FileRole where
  | base
  | fingerprint
  | input
  | output
deriving DecidableEq, Repr

/-- How a file is touched: opened for reading, created (truncating), or
only inspected with os.Stat. -/
inductive FileMode where
  | read
  | create
  | stat
deriving DecidableEq, Repr

/-- One file-system access performed by the program. -/
structure Access where
  path : String
  mode : FileMode
  role : FileRole
deriving DecidableEq, Repr

/-- Embedded from generateFingerprint (src/main.go 300 and 306): open the
base for reading, then create the fingerprint file at the base path with
".fingerprint" appended. -/
def generateFingerprintAccesses (base : String) : List Access :=
  [⟨base, FileMode.read, FileRole.base⟩,
   ⟨base ++ ".fingerprint", FileMode.create, FileRole.fingerprint⟩]

/-- Embedded from makeDiff (src/main.go 361, 425, 442): open the
fingerprint artifact for reading, then the optional input and output
files. -/
def makeDiffAccesses (base inp outp : String) : List Access :=
  ⟨base ++ ".fingerprint", FileMode.read, FileRole.fingerprint⟩ ::
    ((if inp = "" then [] else [⟨inp, FileMode.read, FileRole.input⟩]) ++
      (if outp = "" then [] else [⟨outp, FileMode.create, FileRole.output⟩]))

/-- Embedded from applyPatch (src/main.go 514, 522, 532): open the base
for reading, then the optional input and output files; the fingerprint
artifact is never opened here. -/
def applyPatchAccesses (base inp outp : String) : List Access :=
  ⟨base, FileMode.read, FileRole.base⟩ ::
    ((if inp = "" then [] else [⟨inp, FileMode.read, FileRole.input⟩]) ++
      (if outp = "" then [] else [⟨outp, FileMode.create, FileRole.output⟩]))

/-- Embedded from the command dispatch of main (src/main.go 623 to 641):
the file accesses each command performs, in order.  diff stats the
fingerprint artifact and regenerates it when missing or empty; patch
stats the base and the fingerprint artifact and stops if either check
fails. -/
def mainAccesses (cmd base inp outp : String) (baseExists fpExists : Bool)
    (fpSize : Int) : List Access :=
  if cmd = "fpgen" then generateFingerprintAccesses base
  else if cmd = "diff" then
    Access.mk (base ++ ".fingerprint") FileMode.stat FileRole.fingerprint ::
      ((if fpExists = false ∨ fpSize < 1 then generateFingerprintAccesses base else []) ++
        makeDiffAccesses base inp outp)
  else if cmd = "patch" then
    Access.mk base FileMode.stat FileRole.base ::
      (if baseExists = false then [] else
        Access.mk (base ++ ".fingerprint") FileMode.stat FileRole.fingerprint ::
          (if fpExists = false ∨ fpSize < 1 then [] else
            applyPatchAccesses base inp outp))
  else []

/-- What main does after parsing flags: print usage and return, or
dispatch the requested command with the configured block size. -/
inductive MainAction where
  | usage
  | dispatch (cmd : String) (bs : Int)
deriving DecidableEq, Repr

/-- Embedded from the blocksize flag declaration (src/main.go 296): the
default block size is 6 times 1024 bytes. -/
def defaultBlockSize : Int := 6 * 1024

/-- Embedded from main (src/main.go 604 to 641): an empty base file path
or a block size below 1024 prints usage and returns with no file access;
otherwise the command is dispatched and its accesses happen. -/
def mainRun (cmd file inp outp : String) (bs : Int) (baseExists fpExists : Bool)
    (fpSize : Int) : MainAction × List Access :=
  if file = "" then (MainAction.usage, [])
  else if bs < 1024 then (MainAction.usage, [])
  else (MainAction.dispatch cmd bs,
    mainAccesses cmd file inp outp baseExists fpExists fpSize)

/-- The function calls the diff dispatch arm can make. -/
inductive SessionStep where
  | generateFingerprint
  | makeDiff
deriving DecidableEq, Repr

/-- Embedded from the diff arm of main (src/main.go 626 to 630): when
the fingerprint artifact is missing or empty, generateFingerprint runs
first; makeDiff always runs afterwards. -/
def diffDispatch (fpExists : Bool) (fpSize : Int) : List SessionStep :=
  if fpExists = false ∨ fpSize < 1 then
    [SessionStep.generateFingerprint, SessionStep.makeDiff]
  else [SessionStep.makeDiff]

/-- A statement of the abstracted main-program trace: assign the global
gsync.BlockSize, or run a pipeline stage that reads it. -/
inductive Stmt where
  | setBS (v : Int)
  | stage (name : String)
deriving DecidableEq, Repr

/-- The pipeline stages each command runs, embedded from the dispatch of
main (src/main.go 623 to 641); none of them assigns gsync.BlockSize. -/
def stagesOf (cmd : String) (regen : Bool) : List Stmt :=
  if cmd = "fpgen" then [Stmt.stage "Signatures"]
  else if cmd = "diff" then
    (if regen then [Stmt.stage "Signatures"] else []) ++
      [Stmt.stage "LookUpTable", Stmt.stage "Sync"]
  else if cmd = "patch" then [Stmt.stage "Apply"]
  else []

/-- Embedded from main (src/main.go 617): gsync.BlockSize is assigned
exactly once, before the command dispatch. -/
def mainProgram (cmd : String) (bs : Int) (regen : Bool) : List Stmt :=
  Stmt.setBS bs :: stagesOf cmd regen

/-- Interpreter for the global block size: `observe cur stmts` returns,
for every stage run, the block-size value it reads. -/
def observe : Int → List Stmt → List (String × Int)
  | _, [] => []
  | _, Stmt.setBS v :: rest => observe v rest
  | cur, Stmt.stage n :: rest => (n, cur) :: observe cur rest

/-- One gob record of a patch artifact: the leading total value or an
operation. -/
inductive PatchRecord where
  | count (n : Nat)
  | op (o : BlockOperation)
deriving DecidableEq, Repr

/-- Embedded from makeDiff (src/main.go 371, 431 to 438, 467): the
leading value written before the operations is bar.Total, which is the
fingerprint file size divided by the block size when an input path was
given (the code stats fpFile again at 431) and 0 when the target comes
from standard input. -/
def diffLeadingValue (inGiven : Bool) (fpFileSize bs : Nat) : Nat :=
  if inGiven then fpFileSize / bs else 0

/-- Embedded from makeDiff (src/main.go 466 to 505): the patch artifact
is the leading value followed by the encoded operations, in order. -/
def diffArtifact (inGiven : Bool) (fpFileSize bs : Nat)
    (ops : List BlockOperation) : List PatchRecord :=
  PatchRecord.count (diffLeadingValue inGiven fpFileSize bs) ::
    ops.map PatchRecord.op

/-- Embedded from applyPatch (src/main.go 550): decode exactly one
leading value from the front of the patch stream. -/
def patchDecodeHeader : List PatchRecord → Except String (Nat × List PatchRecord)
  | PatchRecord.count n :: rest => Except.ok (n, rest)
  | _ => Except.error "gob: cannot decode leading value"

/-- Embedded from the applyPatch decoder goroutine (src/main.go 577 to
588): every record after the leading value must decode as an operation. -/
def decodeOps : List PatchRecord → Except String (List BlockOperation)
  | [] => Except.ok []
  | PatchRecord.op o :: rest =>
    match decodeOps rest with
    | Except.error e => Except.error e
    | Except.ok ops => Except.ok (o :: ops)
  | PatchRecord.count _ :: _ => Except.error "gob: type mismatch"

/-- Embedded from applyPatch (src/main.go 513 to 602): decode the
leading value, decode the operations, and reconstruct with Apply against
the base; only the base content and the patch stream enter the result. -/
def applyPatchPipeline (S : Nat) (B : List Nat) (patch : List PatchRecord) :
    Except String (List Nat) :=
  match patchDecodeHeader patch with
  | Except.error e => Except.error e
  | Except.ok (_, rest) =>
    match decodeOps rest with
    | Except.error e => Except.error e
    | Except.ok ops =>
      match Apply S B ops with
      | Except.error e => Except.error e
      | Except.ok (out, _) => Except.ok out

/-- Embedded from the patch arm of main (src/main.go 631 to 638) plus
applyPatch: the base must exist and the fingerprint artifact must exist
and be non-empty, but the fingerprint content, though present on disk, is
never opened in this path and does not influence the result. -/
def patchCommand (baseExists fpExists : Bool) (fpSize : Int)
    (fpContent : List Nat) (S : Nat) (B : List Nat)
    (patch : List PatchRecord) : Except String (List Nat) :=
  if baseExists = false then Except.error "Base file is not exists"
  else if fpExists = false ∨ fpSize < 1 then
    Except.error "Fingerprint file is not exists"
  else applyPatchPipeline S B patch

lemma tableLookup_tableInsert (t : LookupTbl) (w' w : Nat) (e : Nat × List Nat) :
    tableLookup (tableInsert t w' e) w =
      if w' = w then tableLookup t w ++ [e] else tableLookup t w := by
  induction t with
  | nil =>
    by_cases h : w' = w <;> simp [tableInsert, tableLookup, h]
  | cons hd tl ih =>
    obtain ⟨w₀, es⟩ := hd
    by_cases h0 : w₀ = w'
    · subst h0
      by_cases hw : w₀ = w <;> simp [tableInsert, tableLookup, hw]
    · by_cases hw : w₀ = w
      · subst hw
        have : ¬ w' = w₀ := fun h => h0 h.symm
        simp [tableInsert, tableLookup, h0, this]
      · simp [tableInsert, tableLookup, h0, hw, ih]

lemma tableLookup_foldl (sigs : List BlockSignature) :
    ∀ (t : LookupTbl) (w : Nat),
      tableLookup
        (sigs.foldl (fun t sig => tableInsert t sig.weak (sig.index, sig.strong)) t) w =
        tableLookup t w ++ candidatesOf sigs w := by
  induction sigs with
  | nil => intro t w; simp [candidatesOf]
  | cons sig rest ih =>
    intro t w
    rw [List.foldl_cons, ih]
    rw [tableLookup_tableInsert]
    by_cases hw : sig.weak = w
    · simp [candidatesOf, hw, List.filter_cons]
    · simp [candidatesOf, hw, List.filter_cons]

lemma confirmStrong_candidatesOf (sigs : List BlockSignature) (w : Nat) (s : List Nat) :
    confirmStrong (candidatesOf sigs w) s = lutFind sigs w s := by
  induction sigs with
  | nil => simp [candidatesOf, confirmStrong, lutFind]
  | cons sig rest ih =>
    by_cases hw : sig.weak = w
    · by_cases hs : sig.strong = s
      · simp [candidatesOf, List.filter_cons, hw, confirmStrong, hs, lutFind]
      · simp only [candidatesOf, List.filter_cons] at ih ⊢
        simp [hw, confirmStrong, hs, lutFind, ih]
    · have : ¬ (sig.weak = w ∧ sig.strong = s) := fun h => hw h.1
      simp only [candidatesOf, List.filter_cons] at ih ⊢
      simp [hw, lutFind, this, ih]

/-- The two-level table probe (weak bucket, then strong confirmation) is
the first signature, in insertion order, matching both checksums. -/
lemma tableFind_LookUpTable (sigs : List BlockSignature) (w : Nat) (s : List Nat) :
    tableFind (LookUpTable sigs) w s = lutFind sigs w s := by
  rw [tableFind, LookUpTable, tableLookup_foldl]
  simp [tableLookup, confirmStrong_candidatesOf]

lemma lutFind_mem (sigs : List BlockSignature) (w : Nat) (s : List Nat) (i : Nat)
    (h : lutFind sigs w s = some i) :
    ∃ sig, sig ∈ sigs ∧ sig.index = i ∧ sig.weak = w ∧ sig.strong = s := by
  induction sigs with
  | nil => simp [lutFind] at h
  | cons sig rest ih =>
    rw [lutFind] at h
    by_cases hc : sig.weak = w ∧ sig.strong = s
    · refine ⟨sig, List.mem_cons_self _ _, ?_, hc.1, hc.2⟩
      simp [hc] at h
      exact h
    · simp [hc] at h
      obtain ⟨sig', hmem, hrest⟩ := ih h
      exact ⟨sig', List.mem_cons_of_mem _ hmem, hrest⟩

lemma fingerprintF_strong :
    ∀ (fuel S i : Nat) (B : List Nat), 0 < S → B.length ≤ fuel →
      ∀ sig ∈ fingerprintF fuel S i B,
        i ≤ sig.index ∧ sig.strong = (B.drop ((sig.index - i) * S)).take S := by
  intro fuel
  induction fuel with
  | zero => intro S i B _ _ sig hmem; simp [fingerprintF] at hmem
  | succ fuel ih =>
    intro S i B hS hlen sig hmem
    rw [fingerprintF] at hmem
    by_cases hB : B = []
    · simp [hB] at hmem
    · simp only [hB, if_false, List.mem_cons] at hmem
      rcases hmem with heq | htail
      · subst heq
        simp [strongHash]
      · have hBlen : 0 < B.length := List.length_pos.mpr hB
        have hdrop : (B.drop S).length ≤ fuel := by
          rw [List.length_drop]
          omega
        obtain ⟨hle, hstr⟩ := ih S (i + 1) (B.drop S) hS hdrop sig htail
        refine ⟨by omega, ?_⟩
        rw [hstr, List.drop_drop]
        congr 2
        have : sig.index - i = (sig.index - (i + 1)) + 1 := by omega
        rw [this, Nat.succ_mul]
        omega

/-- Every signature of the fingerprint stage carries the strong digest of
exactly its own block of the base file. -/
lemma Signatures_strong (S : Nat) (B : List Nat) (hS : 0 < S) :
    ∀ sig ∈ Signatures S B, sig.strong = (B.drop (sig.index * S)).take S := by
  intro sig hmem
  have := fingerprintF_strong B.length S 0 B hS le_rfl sig hmem
  simpa using this.2

lemma applyOut_flushTail (S : Nat) (B : List Nat) (lit rest : List Nat) :
    applyOut S B (flushTail lit rest) = Except.ok (lit ++ rest) := by
  by_cases hl : lit = [] <;> by_cases hr : rest = [] <;>
    simp [flushTail, hl, hr, applyOut, applyBlock]

lemma applyOut_flushLit (S : Nat) (B : List Nat) (lit : List Nat)
    (ops : List BlockOperation) (r : List Nat) (h : applyOut S B ops = Except.ok r) :
    applyOut S B ((if lit = [] then [] else [BlockOperation.literal lit]) ++ ops) =
      Except.ok (lit ++ r) := by
  by_cases hl : lit = []
  · simp [hl, h]
  · simp [hl, applyOut, applyBlock, h]

/-- Round-trip invariant of the rolling scan: applying the operations the
encoder emits from state (pending literal `lit`, remaining target `rest`)
reconstructs `lit ++ rest`, when the table is the one built from the
fingerprint of the base. -/
lemma syncF_applyOut (S : Nat) (hS : 0 < S) (B : List Nat) :
    ∀ (fuel : Nat) (lit rest : List Nat), rest.length ≤ fuel →
      applyOut S B (syncF (LookUpTable (Signatures S B)) S fuel lit rest) =
        Except.ok (lit ++ rest) := by
  intro fuel
  induction fuel with
  | zero =>
    intro lit rest hlen
    have hnil : rest = [] := List.length_eq_zero.mp (by omega)
    subst hnil
    rw [syncF, applyOut_flushTail]
  | succ fuel ih =>
    intro lit rest hlen
    rw [syncF]
    by_cases hshort : rest.length < S
    · rw [if_pos hshort, applyOut_flushTail]
    · rw [if_neg hshort]
      cases hfind : tableFind (LookUpTable (Signatures S B))
        (weakSum (rest.take S)) (strongHash (rest.take S)) with
      | some i =>
        have hlut : lutFind (Signatures S B)
            (weakSum (rest.take S)) (strongHash (rest.take S)) = some i := by
          rw [← tableFind_LookUpTable]
          exact hfind
        obtain ⟨sig, hmem, hidx, _, hstr⟩ := lutFind_mem _ _ _ _ hlut
        have hblk : (B.drop (i * S)).take S = rest.take S := by
          have hsig := Signatures_strong S B hS sig hmem
          rw [hstr, strongHash] at hsig
          rw [← hidx, ← hsig]
        have hIH := ih [] (rest.drop S) (by rw [List.length_drop]; omega)
        simp only [List.nil_append] at hIH
        have hcons : applyOut S B (BlockOperation.copy i ::
            syncF (LookUpTable (Signatures S B)) S fuel [] (rest.drop S)) =
            Except.ok rest := by
          simp only [applyOut, applyBlock, hIH]
          rw [hblk, List.take_append_drop]
        exact applyOut_flushLit S B lit _ rest hcons
      | none =>
        rw [ih (lit ++ rest.take 1) (rest.drop 1) (by rw [List.length_drop]; omega)]
        rw [List.append_assoc, List.take_append_drop]

/-- Threading the output digest through the reconstruction absorbs
exactly the written bytes: when the plain reconstruction succeeds with
`r`, the digest-threading loop extends both accumulators by `r`. -/
lemma applyLoop_of_applyOut (S : Nat) (B : List Nat) :
    ∀ (ops : List BlockOperation) (out digest r : List Nat),
      applyOut S B ops = Except.ok r →
      applyLoop S B out digest ops = Except.ok (out ++ r, digest ++ r) := by
  intro ops
  induction ops with
  | nil =>
    intro out digest r h
    simp only [applyOut, Except.ok.injEq] at h
    subst h
    simp [applyLoop]
  | cons op rest ih =>
    intro out digest r h
    cases hb : applyBlock S B op with
    | error e =>
      simp [applyOut, hb] at h
    | ok bytes =>
      cases ho : applyOut S B rest with
      | error e =>
        simp [applyOut, hb, ho] at h
      | ok out' =>
        simp only [applyOut, hb, ho, Except.ok.injEq] at h
        subst h
        simp only [applyLoop, hb]
        rw [ih (out ++ bytes) (digest ++ bytes) out' ho]
        simp [List.append_assoc]

/-- Shape of a feeder output: a run of clean records, possibly followed
by one terminal error-marked record. -/
lemma feeder_shape (α : Type) (cancelAt : Option Nat) :
    ∀ (ds : List (DecodeStep α)) (i : Nat),
      ∃ items : List α,
        feeder cancelAt i ds = items.map ChanRec.item ∨
        feeder cancelAt i ds = items.map ChanRec.item ++ [ChanRec.errRec] := by
  intro ds
  induction ds with
  | nil =>
    intro i
    by_cases hc : cancelObserved cancelAt i = true
    · exact ⟨[], Or.inr (by simp [feeder, hc])⟩
    · exact ⟨[], Or.inl (by simp [feeder, hc])⟩
  | cons d rest ih =>
    intro i
    cases d with
    | eof =>
      by_cases hc : cancelObserved cancelAt i = true
      · exact ⟨[], Or.inr (by simp [feeder, hc])⟩
      · exact ⟨[], Or.inl (by simp [feeder, hc])⟩
    | fail =>
      by_cases hc : cancelObserved cancelAt i = true
      · exact ⟨[], Or.inr (by simp [feeder, hc])⟩
      · exact ⟨[], Or.inr (by simp [feeder, hc])⟩
    | ok a =>
      by_cases hc : cancelObserved cancelAt i = true
      · exact ⟨[], Or.inr (by simp [feeder, hc])⟩
      · obtain ⟨items, hcase⟩ := ih (i + 1)
        rcases hcase with h | h
        · exact ⟨a :: items, Or.inl (by simp [feeder, hc, h])⟩
        · exact ⟨a :: items, Or.inr (by simp [feeder, hc, h])⟩

/-- Stages read the block-size value current at their position; with no
assignment among the statements, every stage reads the entry value. -/
lemma observe_onlyStages :
    ∀ (stmts : List Stmt), (∀ v, Stmt.setBS v ∉ stmts) →
      ∀ (cur : Int) (p : String × Int), p ∈ observe cur stmts → p.2 = cur := by
  intro stmts
  induction stmts with
  | nil =>
    intro _ cur p hp
    simp [observe] at hp
  | cons s rest ih =>
    intro hno cur p hp
    cases s with
    | setBS v => exact absurd (List.mem_cons_self _ _) (hno v)
    | stage n =>
      rw [observe] at hp
      rcases List.mem_cons.mp hp with h | h
      · rw [h]
      · exact ih (fun v hv => hno v (List.mem_cons_of_mem _ hv)) cur p h

/-- No command dispatch arm reassigns gsync.BlockSize. -/
lemma stagesOf_no_setBS (cmd : String) (regen : Bool) :
    ∀ v, Stmt.setBS v ∉ stagesOf cmd regen := by
  intro v
  by_cases h1 : cmd = "fpgen"
  · simp [stagesOf, h1]
  · by_cases h2 : cmd = "diff"
    · cases regen <;> simp [stagesOf, h1, h2]
    · by_cases h3 : cmd = "patch" <;> simp [stagesOf, h1, h2, h3]

lemma generateFingerprintAccesses_path (base : String) :
    ∀ a ∈ generateFingerprintAccesses base,
      a.role = FileRole.fingerprint → a.path = base ++ ".fingerprint" := by
  intro a ha _
  rcases List.mem_cons.mp ha with h | h
  · subst h; simp at *
  · rcases List.mem_cons.mp h with h | h
    · subst h; rfl
    · simp at h

lemma makeDiffAccesses_path (base inp outp : String) :
    ∀ a ∈ makeDiffAccesses base inp outp,
      a.role = FileRole.fingerprint → a.path = base ++ ".fingerprint" := by
  intro a ha hrole
  rw [makeDiffAccesses] at ha
  rcases List.mem_cons.mp ha with h | h
  · subst h; rfl
  · rcases List.mem_append.mp h with h | h
    · by_cases hi : inp = ""
      · simp [hi] at h
      · simp only [hi, if_false, List.mem_singleton] at h
        subst h
        simp at hrole
    · by_cases ho : outp = ""
      · simp [ho] at h
      · simp only [ho, if_false, List.mem_singleton] at h
        subst h
        simp at hrole

lemma applyPatchAccesses_no_fingerprint (base inp outp : String) :
    ∀ a ∈ applyPatchAccesses base inp outp, a.role ≠ FileRole.fingerprint := by
  intro a ha
  rw [applyPatchAccesses] at ha
  rcases List.mem_cons.mp ha with h | h
  · subst h; simp
  · rcases List.mem_append.mp h with h | h
    · by_cases hi : inp = ""
      · simp [hi] at h
      · simp only [hi, if_false, List.mem_singleton] at h
        subst h; simp
    · by_cases ho : outp = ""
      · simp [ho] at h
      · simp only [ho, if_false, List.mem_singleton] at h
        subst h; simp

/-- Every fatal exit of the fpgen loop removes the fingerprint file
first. -/
lemma generateFingerprintLoop_cleanup :
    ∀ steps, (generateFingerprintLoop steps).fatal = true →
      (generateFingerprintLoop steps).removedFingerprint = true := by
  intro steps
  induction steps with
  | nil => intro h; simp [generateFingerprintLoop] at h
  | cons r rest ih =>
    intro h
    by_cases h1 : r.cancelledBefore <;> by_cases h2 : r.hasError <;>
      by_cases h3 : r.encodeFails <;>
      simp_all [generateFingerprintLoop]

/-- Every fatal exit of the diff session removes the named output file
first (kept as context for the cleanup analysis of the three sessions). -/
lemma makeDiffOutcome_cleanup :
    ∀ (syncFails headerEncodeFails : Bool) (ops : List OpStep),
      (makeDiffOutcome true syncFails headerEncodeFails ops).fatal = true →
      (makeDiffOutcome true syncFails headerEncodeFails ops).removedOutput = true := by
  intro syncFails headerEncodeFails ops
  cases syncFails
  · cases headerEncodeFails
    · simp only [makeDiffOutcome, Bool.false_eq_true, if_false]
      induction ops with
      | nil => intro h; simp [makeDiffLoop] at h
      | cons r rest ih =>
        intro h
        by_cases h1 : r.cancelledBefore <;> by_cases h2 : r.hasError <;>
          by_cases h3 : r.encodeFails <;>
          simp_all [makeDiffLoop]
    · intro _; rfl
  · intro _; rfl

/-! ## Claim theorems -/

/-- C1: for every base file B, every target file T and every valid block
size S (at least 1024), applying the patch produced by the diff pipeline
(fingerprint B, build the lookup table, encode T) against B reconstructs
T byte for byte. -/
theorem apply_diff_roundTrip (S : Nat) (hS : 1024 ≤ S) (B T : List Nat) :
    applyOut S B (Sync S (LookUpTable (Signatures S B)) T) = Except.ok T := by
  have h := syncF_applyOut S (by omega) B T.length [] T le_rfl
  simpa [Sync] using h

theorem apply_diff_roundTrip_witness :
    (1024 ≤ 1024) ∧
      applyOut 1024 (List.replicate 1024 5)
          (Sync 1024 (LookUpTable (Signatures 1024 (List.replicate 1024 5)))
            (List.replicate 1024 5)) =
        Except.ok (List.replicate 1024 5) :=
  ⟨by decide,
    apply_diff_roundTrip 1024 (by decide) (List.replicate 1024 5)
      (List.replicate 1024 5)⟩

/-- C2 (amended): on every successful round trip the output digest
absorbed while applying equals the digest absorbed while encoding (both
are the target bytes); the program, however, only logs the two digests
and never compares them — see the counterexample for the missing
mismatch error. -/
theorem digest_agreement (S : Nat) (hS : 1024 ≤ S) (B T : List Nat) :
    Apply S B (Sync S (LookUpTable (Signatures S B)) T) =
      Except.ok (T, encodeDigestInput T) := by
  have h := syncF_applyOut S (by omega) B T.length [] T le_rfl
  simp only [List.nil_append] at h
  have h2 := applyLoop_of_applyOut S B _ [] [] T h
  simpa [Apply, Sync, encodeDigestInput] using h2

theorem digest_agreement_witness :
    (1024 ≤ 1024) ∧
      Apply 1024 [] (Sync 1024 (LookUpTable (Signatures 1024 [])) [3, 4]) =
        Except.ok ([3, 4], encodeDigestInput [3, 4]) :=
  ⟨by decide, digest_agreement 1024 (by decide) [] [3, 4]⟩

/-- C2 counterexample: the patch for target [1] against the empty base is
the single literal [1]; applying the corrupted stream (literal [2])
succeeds with output digest [2], different from the encoder digest of
target [1]; and a successful apply session is not fatal — the program
never compares the two digests, so the mismatch is not surfaced as an
error. -/
theorem digest_mismatch_not_error :
    Sync 1024 (LookUpTable (Signatures 1024 [])) [1] =
      [BlockOperation.literal [1]] ∧
    Apply 1024 [] [BlockOperation.literal [2]] = Except.ok ([2], [2]) ∧
    encodeDigestInput [1] ≠ [2] ∧
    applyPatchOutcome true ApplyFailure.none =
      { removedFingerprint := false, removedOutput := false, fatal := false } :=
  ⟨rfl, rfl, by decide, rfl⟩

/-- C3 (amended): the single leading value of a diff patch artifact is
the progress estimate, fingerprint-file size divided by block size when
an input path was given and 0 when the target comes from standard input;
the patch command decodes exactly this one leading value before any
operation, and every record after it is an operation record. -/
theorem patch_leading_value (inGiven : Bool) (fpFileSize bs : Nat)
    (ops : List BlockOperation) :
    patchDecodeHeader (diffArtifact inGiven fpFileSize bs ops) =
      Except.ok (diffLeadingValue inGiven fpFileSize bs, ops.map PatchRecord.op) ∧
    (diffArtifact inGiven fpFileSize bs ops).head? =
      some (PatchRecord.count (diffLeadingValue inGiven fpFileSize bs)) :=
  ⟨rfl, rfl⟩

/-- C3 counterexample: a diff reading the target from standard input
writes leading value 0, while the artifact for target [1] against the
empty base contains one operation unit; so the leading value is not the
number of Copy and Literal units that follow. -/
theorem leading_value_not_op_count :
    diffArtifact false 0 1024 (Sync 1024 (LookUpTable (Signatures 1024 [])) [1]) =
      [PatchRecord.count 0, PatchRecord.op (BlockOperation.literal [1])] ∧
    diffLeadingValue false 0 1024 = 0 ∧
    (Sync 1024 (LookUpTable (Signatures 1024 [])) [1]).length = 1 ∧
    (0 : Nat) ≠ 1 :=
  ⟨rfl, rfl, rfl, by decide⟩

/-- C4: when gsync.Apply fails inside a patch session with a named
output file (corrupt operation record or cancellation after the leading
value was decoded), the session exits fatally without removing the
incomplete output file, although the header-decode failure path a few
lines earlier does remove it. -/
theorem applyPatch_output_not_removed :
    applyPatchOutcome true ApplyFailure.applyFails =
      { removedFingerprint := false, removedOutput := false, fatal := true } ∧
    applyPatchOutcome true ApplyFailure.headerDecodeFails =
      { removedFingerprint := false, removedOutput := true, fatal := true } :=
  ⟨rfl, rfl⟩

/-- C5: the output of a persisted-artifact decoder feeder is a run of
clean records, possibly followed by one error-marked terminal record:
an error-marked record is unique and always the last record, so once
cancellation is observed between records or a decode failure occurs,
exactly one error-marked record is emitted and nothing follows it. -/
theorem feeder_error_terminal (α : Type) (cancelAt : Option Nat)
    (ds : List (DecodeStep α)) :
    ∃ items : List α,
      feeder cancelAt 0 ds = items.map ChanRec.item ∨
      feeder cancelAt 0 ds = items.map ChanRec.item ++ [ChanRec.errRec] :=
  feeder_shape α cancelAt ds 0

/-- C6: with a missing base file path, or a requested block size below
1024, main prints usage and returns before dispatching any command, so
no file is opened, read, created or written; the default block size is
6144 bytes. -/
theorem usage_before_work (cmd file inp outp : String) (bs : Int)
    (baseExists fpExists : Bool) (fpSize : Int)
    (h : file = "" ∨ bs < 1024) :
    mainRun cmd file inp outp bs baseExists fpExists fpSize =
      (MainAction.usage, []) ∧ defaultBlockSize = 6144 := by
  refine ⟨?_, by decide⟩
  rcases h with h | h
  · simp [mainRun, h]
  · by_cases hf : file = "" <;> simp [mainRun, hf, h]

theorem usage_before_work_witness :
    (("" : String) = "" ∨ (500 : Int) < 1024) ∧
      (mainRun "diff" "" "" "" 500 true true 0 = (MainAction.usage, []) ∧
        defaultBlockSize = 6144) :=
  ⟨Or.inl rfl, usage_before_work "diff" "" "" "" 500 true true 0 (Or.inl rfl)⟩

/-- C7: when the fingerprint artifact of the base file is missing or
empty, the diff command first regenerates it and then proceeds to
makeDiff, rather than failing. -/
theorem diff_regenerates_fingerprint (fpExists : Bool) (fpSize : Int)
    (h : fpExists = false ∨ fpSize < 1) :
    diffDispatch fpExists fpSize =
      [SessionStep.generateFingerprint, SessionStep.makeDiff] := by
  simp only [diffDispatch, if_pos h]

theorem diff_regenerates_fingerprint_witness :
    ((false = false) ∨ ((0 : Int) < 1)) ∧
      diffDispatch false 0 =
        [SessionStep.generateFingerprint, SessionStep.makeDiff] :=
  ⟨Or.inl rfl, diff_regenerates_fingerprint false 0 (Or.inl rfl)⟩

/-- C8: the block size is assigned once, before the command dispatch,
and every pipeline stage of the session observes exactly that value. -/
theorem blockSize_session_invariant (init : Int) (cmd : String) (bs : Int)
    (regen : Bool) (stage : String) (v : Int)
    (h : (stage, v) ∈ observe init (mainProgram cmd bs regen)) : v = bs := by
  rw [mainProgram, observe] at h
  exact observe_onlyStages (stagesOf cmd regen) (stagesOf_no_setBS cmd regen)
    bs (stage, v) h

theorem blockSize_session_invariant_witness :
    (("Apply", (6144 : Int)) ∈ observe 0 (mainProgram "patch" 6144 false)) ∧
      (6144 : Int) = 6144 :=
  ⟨by decide,
    blockSize_session_invariant 0 "patch" 6144 false "Apply" 6144 (by decide)⟩

/-- C9: the patch command requires the fingerprint artifact to exist and
be non-empty, but never reads its content: with the same base file and
patch stream, any two fingerprint contents give identical reconstructed
output. -/
theorem patch_ignores_fingerprint_content (baseExists fpExists : Bool)
    (fpSize : Int) (fp1 fp2 : List Nat) (S : Nat) (B : List Nat)
    (patch : List PatchRecord) :
    (patchCommand baseExists fpExists fpSize fp1 S B patch =
      patchCommand baseExists fpExists fpSize fp2 S B patch) ∧
    ((fpExists = false ∨ fpSize < 1) → baseExists = true →
      patchCommand baseExists fpExists fpSize fp1 S B patch =
        Except.error "Fingerprint file is not exists") := by
  refine ⟨rfl, ?_⟩
  intro h hb
  simp [patchCommand, hb, h]

theorem patch_ignores_fingerprint_content_witness :
    (patchCommand true true 0 [1] 1024 [] [] =
      patchCommand true true 0 [2] 1024 [] []) ∧
      patchCommand true true 0 [1] 1024 [] [] =
        Except.error "Fingerprint file is not exists" :=
  ⟨(patch_ignores_fingerprint_content true true 0 [1] [2] 1024 [] []).1,
    (patch_ignores_fingerprint_content true true 0 [1] [2] 1024 [] []).2
      (Or.inr (by decide)) rfl⟩

/-- C10: every access to the fingerprint artifact, in all three
commands, uses the base file path with ".fingerprint" appended, and the
fpgen command creates (truncating) the file at exactly that path. -/
theorem fingerprint_path_derivation (cmd base inp outp : String)
    (baseExists fpExists : Bool) (fpSize : Int) :
    (∀ a ∈ mainAccesses cmd base inp outp baseExists fpExists fpSize,
        a.role = FileRole.fingerprint → a.path = base ++ ".fingerprint") ∧
    (cmd = "fpgen" →
      Access.mk (base ++ ".fingerprint") FileMode.create FileRole.fingerprint ∈
        mainAccesses cmd base inp outp baseExists fpExists fpSize) := by
  constructor
  · intro a ha hrole
    rw [mainAccesses] at ha
    by_cases h1 : cmd = "fpgen"
    · rw [if_pos h1] at ha
      exact generateFingerprintAccesses_path base a ha hrole
    · rw [if_neg h1] at ha
      by_cases h2 : cmd = "diff"
      · rw [if_pos h2] at ha
        rcases List.mem_cons.mp ha with h | h
        · subst h; rfl
        · rcases List.mem_append.mp h with h | h
          · by_cases hre : fpExists = false ∨ fpSize < 1
            · rw [if_pos hre] at h
              exact generateFingerprintAccesses_path base a h hrole
            · rw [if_neg hre] at h
              simp at h
          · exact makeDiffAccesses_path base inp outp a h hrole
      · rw [if_neg h2] at ha
        by_cases h3 : cmd = "patch"
        · rw [if_pos h3] at ha
          rcases List.mem_cons.mp ha with h | h
          · subst h; simp at hrole
          · by_cases hbe : baseExists = false
            · rw [if_pos hbe] at h
              simp at h
            · rw [if_neg hbe] at h
              rcases List.mem_cons.mp h with h | h
              · subst h; rfl
              · by_cases hre : fpExists = false ∨ fpSize < 1
                · rw [if_pos hre] at h
                  simp at h
                · rw [if_neg hre] at h
                  exact absurd hrole
                    (applyPatchAccesses_no_fingerprint base inp outp a h)
        · rw [if_neg h3] at ha
          simp at ha
  · intro h1
    rw [mainAccesses, if_pos h1]
    simp [generateFingerprintAccesses]

theorem fingerprint_path_derivation_witness :
    (Access.mk ("b" ++ ".fingerprint") FileMode.create
        FileRole.fingerprint).path = "b" ++ ".fingerprint" ∧
      Access.mk ("b" ++ ".fingerprint") FileMode.create FileRole.fingerprint ∈
        mainAccesses "fpgen" "b" "" "" true true 0 :=
  ⟨(fingerprint_path_derivation "fpgen" "b" "" "" true true 0).1 _
      ((fingerprint_path_derivation "fpgen" "b" "" "" true true 0).2 rfl) rfl,
    (fingerprint_path_derivation "fpgen" "b" "" "" true true 0).2 rfl⟩

end Godelta
